import Mathlib

/-!
Verification of the bucket resolution and enumeration pipeline of
AWS-Bucket-Scraper (file AWS-Bucket-Scraper-Extended.py), as a shallow
embedding in Lean 4.

Modelling conventions:
* Python strings are Lean `String`s; machine-level text is handled at the
  level of characters and UTF-8 bytes where the source does (URL quoting).
* Python dicts (insertion-ordered, unique keys) are association lists
  `List (String × Nat)` with `dictGet` / `dictSet` mirroring `d.get(k, 0)`
  and `d[k] = v` (update in place keeps the position of an existing key,
  a new key is appended at the end).
* Network calls are external collaborators: their outcomes are inputs to
  the embedded functions.  A value `Except PyExc α` stands for a Python
  call that either returns `α` or raises.  `PyExc.clientError code msg`
  stands for `botocore.exceptions.ClientError` with the given error code
  (`str(e)` is modelled by `msg`); `PyExc.other msg` stands for any other
  exception (for example `requests` connection errors), which the
  enumerator does not catch.
* Python floats are idealised as rationals `ℚ`; `round(x, 2)` is
  round-half-to-even at two decimal places (`round2`), computed on exact
  values.
* `datetime.now()` is an explicit `now : String` argument.
-/

/-! ### Python dict model -/

/-- `d.get(k, 0)` on an insertion-ordered dict represented as an
association list. -/
def dictGet (d : List (String × Nat)) (k : String) : Nat :=
  match d.find? (fun p => p.1 == k) with
  | some p => p.2
  | none => 0

/-- `d[k] = v`: replace the value of an existing key in place, otherwise
append the new binding at the end (Python dict insertion order). -/
def dictSet (d : List (String × Nat)) (k : String) (v : Nat) : List (String × Nat) :=
  match d with
  | [] => [(k, v)]
  | p :: rest => if p.1 == k then (k, v) :: rest else p :: dictSet rest k v

/-- The keys of a dict, in insertion order. -/
def dictKeys (d : List (String × Nat)) : List String := d.map Prod.fst

/-- Total count carried by entries with key `k` in a list of
`(key, count)` items (equals `dictGet` when keys are unique). -/
def entriesCount (d : List (String × Nat)) (k : String) : Nat :=
  ((d.filter (fun p => p.1 == k)).map Prod.snd).sum

/-- Stable descending insert: place `x` before the first entry with a
strictly smaller count, after entries with an equal count. -/
def insertDesc (x : String × Nat) : List (String × Nat) → List (String × Nat)
  | [] => [x]
  | y :: rest => if y.2 < x.2 then x :: y :: rest else y :: insertDesc x rest

/-- `sorted(items, key=lambda x: x[1], reverse=True)`: stable sort of the
items of an extension tally by descending count.  The output of a stable sort
is uniquely determined by the key order and the input order, so this
stable insertion sort produces exactly the Python result. -/
def sortDesc (d : List (String × Nat)) : List (String × Nat) :=
  d.foldl (fun acc x => insertDesc x acc) []

/-! ### Structural string helpers

The built-in Lean `String` functions (`splitOn`, `isPrefixOf`, `contains`,
`toUTF8`) are implemented by well-founded or byte-level recursion the
kernel cannot evaluate, so the Python string operations are modelled by
structurally recursive functions on `List Char` (`String.data`), with
the same semantics. -/

/-- Python `s.split(sep)` for a one-character separator `sep`. -/
def splitOnChar (c : Char) : List Char → List (List Char)
  | [] => [[]]
  | x :: rest =>
    let r := splitOnChar c rest
    if x == c then [] :: r
    else
      match r with
      | h :: t => (x :: h) :: t
      | [] => [[x]]

/-- Fuelled worker for `splitOnL` (the fuel only serves structural
recursion; `splitOnL` supplies enough fuel for it never to run out). -/
def splitOnLF (sep : List Char) : Nat → List Char → List (List Char)
  | _, [] => [[]]
  | 0, cs => [cs]
  | fuel + 1, x :: rest =>
    if sep ≠ [] ∧ sep.isPrefixOf (x :: rest) then
      [] :: splitOnLF sep fuel ((x :: rest).drop sep.length)
    else
      match splitOnLF sep fuel rest with
      | h :: t => (x :: h) :: t
      | [] => [[x]]

/-- Python `s.split(sep)` for a non-empty separator string: split at
non-overlapping occurrences, scanning left to right. -/
def splitOnL (sep cs : List Char) : List (List Char) :=
  splitOnLF sep cs.length cs

/-- Python `sub in s` on character lists (`sub` occurs contiguously). -/
def containsSub (sub : List Char) : List Char → Bool
  | [] => sub.isEmpty
  | x :: t => sub.isPrefixOf (x :: t) || containsSub sub t

/-! ### URL quoting (`urllib.parse.quote(key, safe='/')`)

The Python `quote` function encodes the UTF-8 bytes of the string; a byte is kept
as-is when it is an ASCII letter, a digit, one of `_.-~` (the always-safe
set) or the extra safe character `/`; every other byte becomes `%XX` with
uppercase hex digits. -/

/-- The UTF-8 bytes of one code point (as `Nat`s below 256). -/
def utf8Bytes (c : Nat) : List Nat :=
  if c < 128 then [c]
  else if c < 2048 then [192 + c / 64, 128 + c % 64]
  else if c < 65536 then [224 + c / 4096, 128 + (c / 64) % 64, 128 + c % 64]
  else [240 + c / 262144, 128 + (c / 4096) % 64, 128 + (c / 64) % 64, 128 + c % 64]

def isQuoteSafe (b : Nat) : Bool :=
  (65 ≤ b && b ≤ 90) || (97 ≤ b && b ≤ 122) || (48 ≤ b && b ≤ 57) ||
    b == 95 || b == 46 || b == 45 || b == 126 || b == 47

def hexDigitU (n : Nat) : Char :=
  if n < 10 then Char.ofNat (48 + n) else Char.ofNat (55 + n)

def quoteByte (b : Nat) : List Char :=
  if isQuoteSafe b then [Char.ofNat b]
  else ['%', hexDigitU (b / 16), hexDigitU (b % 16)]

def pyQuote (s : String) : String :=
  String.mk (((s.data.map (fun c => utf8Bytes c.toNat)).flatten.map quoteByte).flatten)

/-! ### `os.path.splitext` (POSIX), extension extraction

The CPython function `genericpath._splitext` (with separator `/` and
extension separator `.`) computes
`sepIndex = p.rfind(sep)` and `dotIndex = p.rfind(extsep)`; when
`dotIndex > sepIndex` it scans `p[sepIndex+1 : dotIndex]` and returns
`p[dotIndex:]` as the extension as soon as a non-dot character is seen,
otherwise the extension is empty.  Equivalently, on the basename
`b = p[sepIndex+1:]` (the part after the last `/`): if `b` contains a
dot, the extension is the suffix of `b` from its last dot provided some
character before that dot is not a dot, else it is empty.  We compute on
the reversed character list: the last dot of the basename is the first
dot of its reversal. -/

/-- `p[sepIndex+1:]` where `sepIndex = p.rfind(sep)`: the characters
after the last slash (the whole list when there is no slash). -/
def basenameOf (cs : List Char) : List Char :=
  (cs.reverse.takeWhile (fun c => c ≠ '/')).reverse

/-- The extension characters, given the reversed basename `rb`: empty
when the basename has no dot (`dropWhile` consumed everything), else the
suffix from the last dot of the basename (a dot plus the reversed characters
after it), provided some character before that dot is not a dot. -/
def splitextExtCore (rb : List Char) : List Char :=
  match rb.dropWhile (fun c => c ≠ '.') with
  | [] => []
  | _dot :: beforeRev =>
    if beforeRev.any (fun c => c ≠ '.') then
      '.' :: (rb.takeWhile (fun c => c ≠ '.')).reverse
    else []

/-- The extension component of `os.path.splitext p` (POSIX rules). -/
def splitextExt (p : String) : String :=
  String.mk (splitextExtCore ((basenameOf p.data).reverse))

/-! ### URL building (`bucket_has_dots`, `get_bucket_url`) -/

/-- `'.' in bucket_name`. -/
def bucket_has_dots (bucket_name : String) : Bool :=
  bucket_name.data.contains '.'

/-- `get_bucket_url(bucket_name, region=None)`.  The Python condition
`if region and region != 'us-east-1'` treats `None` and the empty string
as falsy, which `region.getD ""` mirrors. -/
def get_bucket_url (bucket_name : String) (region : Option String := none) : String :=
  if bucket_has_dots bucket_name then
    let r := region.getD ""
    if r ≠ "" ∧ r ≠ "us-east-1" then
      "https://s3." ++ r ++ ".amazonaws.com/" ++ bucket_name
    else
      "https://s3.amazonaws.com/" ++ bucket_name
  else
    "https://" ++ bucket_name ++ ".s3.amazonaws.com"

/-! ### Rounding (`round(x, 2)`), rational idealisation of floats -/

/-- Round `n / d` (with `d > 0`) to the nearest integer, ties to the even
integer (Python `round` semantics on exact values). -/
def roundHalfEvenInt (n : ℤ) (d : ℕ) : ℤ :=
  let f := Int.ediv n d
  let r := n - f * d
  if 2 * r < d then f
  else if (d : ℤ) < 2 * r then f + 1
  else if f % 2 = 0 then f else f + 1

/-- `round(q, 2)`: round `q * 100` half-to-even, divide by 100. -/
def round2 (q : ℚ) : ℚ :=
  Rat.divInt (roundHalfEvenInt (q.num * 100) q.den) 100

/-! ### Region shape check (`is_valid_region`) and Python `int()` -/

/-- Some underscore separates two digit groups; underscores may not
lead, trail, or repeat (`int()` literal grammar after the sign). -/
def digitsU : List Char → Bool
  | [] => true
  | ['_'] => false
  | '_' :: c :: rest => c.isDigit && digitsU (c :: rest)
  | c :: rest => c.isDigit && digitsU rest

/-- `int(s)` succeeds on the string with these characters: optional
surrounding whitespace, an optional sign, then a non-empty digit
sequence with single underscores between digits.  (ASCII digits and
whitespace model the common case.) -/
def pyIntParsesL (cs : List Char) : Bool :=
  let core := ((cs.dropWhile Char.isWhitespace).reverse.dropWhile
      Char.isWhitespace).reverse
  let core := match core with
    | c :: rest => if c = '+' ∨ c = '-' then rest else c :: rest
    | [] => []
  match core with
  | [] => false
  | c :: rest => c.isDigit && digitsU rest

/-- `int(s)` succeeds. -/
def pyIntParses (s : String) : Bool :=
  pyIntParsesL s.data

def valid_prefixes : List String :=
  ["us-", "eu-", "ap-", "sa-", "ca-", "me-", "af-", "cn-"]

/-- `is_valid_region(region_str)`: empty strings fail; the string must
start with one of `valid_prefixes` (`startswith`), split on `-` into at
least three parts, and have an `int()`-parseable final part. -/
def is_valid_region (region_str : String) : Bool :=
  if region_str.data.isEmpty then false
  else if !(valid_prefixes.any fun p => p.data.isPrefixOf region_str.data) then false
  else
    let parts := splitOnChar '-' region_str.data
    if parts.length < 3 then false
    else pyIntParsesL (parts.getLastD [])

/-! ### Command-line parsing (`parse_command_line_args`) -/

/-- The `while i < len(args)` loop of `parse_command_line_args`, with
the cursor `i` represented by the remaining suffix `args[i:]`: the token
at the cursor is a bucket name; when a following token exists and passes
`is_valid_region` it is consumed as the region of that bucket and the cursor
advances by two, else by one. -/
def parseLoop : List String → List (String × Option String)
  | [] => []
  | [bucket_name] => [(bucket_name, none)]
  | bucket_name :: nxt :: rest =>
    if is_valid_region nxt then (bucket_name, some nxt) :: parseLoop rest
    else (bucket_name, none) :: parseLoop (nxt :: rest)

/-- `parse_command_line_args()` on `sys.argv[1:]`.  `(False, None)` when
no arguments were given; a leading `--combine` is consumed before the
bucket scan; `(combine, None)` when nothing remains after the flag. -/
def parse_command_line_args (args : List String) : Bool × Option (List (String × Option String)) :=
  match args with
  | [] => (false, none)
  | a0 :: rest =>
    let combine := a0 == "--combine"
    let args' := if combine then rest else a0 :: rest
    if args'.isEmpty then (combine, none)
    else (combine, some (parseLoop args'))

/-! ### Data model -/

/-- An object as returned by `list_objects_v2` (`Key`, `Size`,
`LastModified`); the listing API contract returns a non-negative byte
size, hence `Nat`. -/
structure S3Obj where
  key : String
  size : Nat
  lastModified : String
deriving DecidableEq

/-- A Python exception, as far as the enumerator distinguishes them:
`botocore.exceptions.ClientError` (with its error code and `str(e)`)
versus anything else (connection errors, timeouts, ...). -/
inductive PyExc where
  | clientError (code msg : String)
  | other (msg : String)
deriving DecidableEq

/-- One per-object record of a `BucketReport`. -/
structure FileInfo where
  bucket_name : String
  region : String
  key : String
  url : String
  size_bytes : Nat
  size_mb : ℚ
  last_modified : String
deriving DecidableEq

/-- The per-bucket report built by `list_files_in_bucket`. -/
structure BucketReport where
  bucket_name : String
  region : String
  scan_timestamp : String
  files : List FileInfo
  extension_statistics : List (String × Nat)
  errors : List String
deriving DecidableEq

/-- The combined-mode output document. -/
structure CombinedReport where
  scan_timestamp : String
  total_buckets : Nat
  buckets : List BucketReport
  global_extension_statistics : List (String × Nat)
deriving DecidableEq

/-! ### Bucket enumeration (`list_files_in_bucket`) -/

/-- The `file_info` record built for one object inside the listing loop,
including the inline URL-style branching on `bucket_has_dots` and
`region != 'us-east-1'`. -/
def mkFileInfo (bucket_name region : String) (obj : S3Obj) : FileInfo :=
  let encoded_key := pyQuote obj.key
  let link :=
    if bucket_has_dots bucket_name then
      if region ≠ "us-east-1" then
        "https://s3." ++ region ++ ".amazonaws.com/" ++ bucket_name ++ "/" ++ encoded_key
      else
        "https://s3.amazonaws.com/" ++ bucket_name ++ "/" ++ encoded_key
    else
      "https://" ++ bucket_name ++ ".s3.amazonaws.com/" ++ encoded_key
  { bucket_name := bucket_name
    region := region
    key := obj.key
    url := link
    size_bytes := obj.size
    size_mb := round2 (Rat.divInt obj.size (1024 * 1024))
    last_modified := obj.lastModified }

/-- The extension-count loop: `os.path.splitext` on each key, keys with
an empty extension are skipped, others increment their dict entry. -/
def tallyExtensions (keys : List String) : List (String × Nat) :=
  keys.foldl
    (fun acc key =>
      let ext := splitextExt key
      if ext ≠ "" then dictSet acc ext (dictGet acc ext + 1) else acc)
    []

/-- The two error strings of the `except ClientError` branch. -/
def errMsgFor (bucket_name region code msg : String) : String :=
  if code == "NoSuchBucket" then
    "Bucket " ++ bucket_name ++ " not found in region " ++ region
  else
    "An error occurred in region " ++ region ++ ": " ++ msg

/-- `list_files_in_bucket(bucket_name, region)`.  The listing call is an
external collaborator, passed in as `listing`.  The function catches
only `botocore.exceptions.ClientError`; any other exception raised by
the listing call propagates (the `.error` result). -/
def list_files_in_bucket (bucket_name region now : String)
    (listing : Except PyExc (List S3Obj)) : Except PyExc BucketReport :=
  match listing with
  | .ok objs =>
    .ok { bucket_name := bucket_name
          region := region
          scan_timestamp := now
          files := objs.map (mkFileInfo bucket_name region)
          extension_statistics := sortDesc (tallyExtensions (objs.map (fun o => o.key)))
          errors := [] }
  | .error (.clientError code msg) =>
    .ok { bucket_name := bucket_name
          region := region
          scan_timestamp := now
          files := []
          extension_statistics := []
          errors := [errMsgFor bucket_name region code msg] }
  | .error (.other msg) => .error (.other msg)

/-! ### Region resolution (`get_bucket_region`) -/

/-- HEAD response of method 1 (`requests.head`): headers and status. -/
structure HeadResp where
  headers : List (String × String)
  status : Nat
deriving DecidableEq

/-- Outcome of the `get_bucket_location` API call of method 2:
a `LocationConstraint` (possibly `None`), a `ClientError` with a code,
or any other exception (the bare `except Exception` branch). -/
inductive LocApiOutcome where
  | ok (locationConstraint : Option String)
  | clientError (code : String)
  | otherError (msg : String)
deriving DecidableEq

/-- GET response of method 3 (`requests.get` on `<url>?location`). -/
structure RawResp where
  status : Nat
  text : String
deriving DecidableEq

/-- The observable behaviour of the three probe endpoints for one
bucket; `none` models a raised request exception. -/
structure RegionEnv where
  head : Option HeadResp
  locApi : LocApiOutcome
  raw : Option RawResp
deriving DecidableEq

/-- The probes, in order, that `get_bucket_region` runs. -/
inductive ProbeStep where
  | head
  | locationApi
  | rawXml
deriving DecidableEq

/-- `response.headers[name]` lookup. -/
def headerGet (headers : List (String × String)) (name : String) : Option String :=
  (headers.find? (fun p => p.1 == name)).map Prod.snd

/-- Python `sub in s`. -/
def strContains (s sub : String) : Bool :=
  containsSub sub.data s.data

/-- Method 1: region from the `x-amz-bucket-region` header, else from a
redirect `Location` (split on the marker `.s3.`, then on the suffix
`.amazonaws.com`, taking the segment in between,
or the path-style variant splitting on `s3.`). -/
def headProbeResult (head : Option HeadResp) : Option String :=
  match head with
  | none => none
  | some resp =>
    match headerGet resp.headers "x-amz-bucket-region" with
    | some region => some region
    | none =>
      if (resp.status = 301 ∨ resp.status = 302 ∨ resp.status = 307) ∧
          headerGet resp.headers "Location" ≠ none then
        let location := ((headerGet resp.headers "Location").getD "").data
        if containsSub ".s3.".data location ∧ containsSub ".amazonaws.com".data location then
          let parts :=
            (splitOnL ".amazonaws.com".data ((splitOnL ".s3.".data location).getD 1 [])).headD []
          if parts ≠ [] ∧ parts ≠ "amazonaws".data then some (String.mk parts) else none
        else if containsSub "s3.".data location ∧ containsSub ".amazonaws.com".data location then
          let m :=
            (splitOnL ".amazonaws.com".data ((splitOnL "s3.".data location).getD 1 [])).headD []
          if m ≠ [] ∧ m ≠ "amazonaws".data then some (String.mk m) else none
        else none
      else none

/-- One attempt of the regex `<LocationConstraint>([^<]+)</LocationConstraint>`
at the head of `cs`: the opening literal, then a non-empty run of
non-`<` characters, then the closing literal. -/
def locMatchAt (cs : List Char) : Option String :=
  let opening := "<LocationConstraint>".toList
  if opening.isPrefixOf cs then
    let rest := cs.drop opening.length
    let content := rest.takeWhile (fun c => c ≠ '<')
    if content ≠ [] ∧ "</LocationConstraint>".toList.isPrefixOf (rest.drop content.length) then
      some (String.mk content)
    else none
  else none

/-- `re.search` for the pattern above: leftmost match. -/
def locSearch : List Char → Option String
  | [] => none
  | c :: rest =>
    match locMatchAt (c :: rest) with
    | some g => some g
    | none => locSearch rest

/-- Method 3: raw `?location` GET; on HTTP 200, regex-extract the
`LocationConstraint`, an empty or self-closed tag meaning `us-east-1`. -/
def rawProbeResult (raw : Option RawResp) : Option String :=
  match raw with
  | none => none
  | some resp =>
    if resp.status = 200 then
      match locSearch resp.text.toList with
      | some region => some region
      | none =>
        if strContains resp.text "<LocationConstraint/>" ∨
            strContains resp.text "<LocationConstraint></LocationConstraint>" then
          some "us-east-1"
        else none
    else none

/-- `get_bucket_region(bucket_name)`, instrumented with the list of
probes actually attempted.  Method 2 maps a `None` location constraint
to `us-east-1`, returns `None` immediately on a `NoSuchBucket` client
error, and otherwise falls through to method 3. -/
def get_bucket_region (env : RegionEnv) : Option String × List ProbeStep :=
  match headProbeResult env.head with
  | some region => (some region, [.head])
  | none =>
    match env.locApi with
    | .ok lc => (some (lc.getD "us-east-1"), [.head, .locationApi])
    | .clientError code =>
      if code == "NoSuchBucket" then (none, [.head, .locationApi])
      else (rawProbeResult env.raw, [.head, .locationApi, .rawXml])
    | .otherError _ => (rawProbeResult env.raw, [.head, .locationApi, .rawXml])

/-! ### Combined mode (`__main__`, `--combine`) -/

/-- The `for bucket, region in processed_buckets` scan loop of combine
mode: one `list_files_in_bucket` call per target, an uncaught exception
aborting the run. -/
def scanBuckets (env : String × String → Except PyExc (List S3Obj)) (now : String) :
    List (String × String) → Except PyExc (List BucketReport)
  | [] => .ok []
  | t :: rest =>
    match list_files_in_bucket t.1 t.2 now (env t) with
    | .error e => .error e
    | .ok rep =>
      match scanBuckets env now rest with
      | .error e => .error e
      | .ok reps => .ok (rep :: reps)

/-- `global_extension_count` accumulation for one bucket result:
`global[ext] = global.get(ext, 0) + count` for each entry. -/
def mergeInto (g : List (String × Nat)) (entries : List (String × Nat)) : List (String × Nat) :=
  entries.foldl (fun acc e => dictSet acc e.1 (dictGet acc e.1 + e.2)) g

/-- The accumulation across all bucket results, in scan order. -/
def mergeAll (statsList : List (List (String × Nat))) : List (String × Nat) :=
  statsList.foldl mergeInto []

/-- Combine mode: `total_buckets` is fixed to the number of processed
targets before scanning, one report is appended per target, and the
global statistics are the per-extension sums sorted by descending
count.  Serialization happens once, after the loop, only when no
uncaught exception aborted it. -/
def runCombine (env : String × String → Except PyExc (List S3Obj)) (now : String)
    (targets : List (String × String)) : Except PyExc CombinedReport :=
  match scanBuckets env now targets with
  | .error e => .error e
  | .ok reps =>
    .ok { scan_timestamp := now
          total_buckets := targets.length
          buckets := reps
          global_extension_statistics :=
            sortDesc (mergeAll (reps.map (fun r => r.extension_statistics))) }

/-! ### Spec-side definitions

These follow the words of the specification, to be compared with the
definitions translated from the source. -/

/-- The extension rule of the claim, on characters: the substring of the key
from its last dot (`'.'` plus the characters after the last dot); empty
when the key has no dot. -/
def lastDotExtSpecCore (cs : List Char) : List Char :=
  if cs.contains '.' then '.' :: (cs.reverse.takeWhile (fun c => c ≠ '.')).reverse
  else []

/-- The extension rule of the claim, literally: the substring of the key
starting at its last dot; empty when the key has no dot. -/
def lastDotExtSpec (key : String) : String :=
  String.mk (lastDotExtSpecCore key.data)

/-- The amended extension rule: the substring of the key from its last
dot, provided that dot lies in the last slash-separated component of the key
and some character of that component before the dot is not itself a dot
(so dotfiles such as `.hidden` have no extension); empty otherwise. -/
def lastDotExtAmended (key : String) : String :=
  if ((basenameOf key.data).dropWhile (fun c => c = '.')).contains '.' then lastDotExtSpec key
  else ""

/-- The region-shape grammar as the spec words it: a recognized
geographic prefix, at least three dash-separated components, and a
numeric (integer-parseable) final component. -/
def regionShapeSpec (s : String) : Bool :=
  (valid_prefixes.any fun p => p.data.isPrefixOf s.data) &&
    decide (3 ≤ (splitOnChar '-' s.data).length) &&
    pyIntParsesL ((splitOnChar '-' s.data).getLastD [])

/-- A listing outcome the enumerator degrades gracefully on: a normal
result or a `ClientError`.  `PyExc.other` outcomes are not handled. -/
def handledOutcome : Except PyExc (List S3Obj) → Bool
  | .ok _ => true
  | .error (.clientError _ _) => true
  | .error (.other _) => false

/-- The extension statistics `list_files_in_bucket` produces for one
target under a handled listing outcome. -/
def statsOf (env : String × String → Except PyExc (List S3Obj))
    (t : String × String) : List (String × Nat) :=
  match env t with
  | .ok objs => sortDesc (tallyExtensions (objs.map (fun o => o.key)))
  | .error _ => []

/-! ### Helper lemmas: dict algebra -/

theorem dictGet_cons (p : String × Nat) (t : List (String × Nat)) (k : String) :
    dictGet (p :: t) k = if p.1 == k then p.2 else dictGet t k := by
  by_cases h : p.1 == k
  · simp [dictGet, List.find?_cons_of_pos _ h, h]
  · simp [dictGet, List.find?_cons_of_neg _ h, h]

theorem dictGet_dictSet_self (d : List (String × Nat)) (k : String) (v : Nat) :
    dictGet (dictSet d k v) k = v := by
  induction d with
  | nil => simp [dictSet, dictGet_cons, dictGet]
  | cons p rest ih =>
    by_cases h : p.1 == k
    · simp [dictSet, h, dictGet_cons]
    · simp [dictSet, h, dictGet_cons, ih]

theorem dictGet_dictSet_other (d : List (String × Nat)) (k : String) (v : Nat)
    (k' : String) (h : k' ≠ k) : dictGet (dictSet d k v) k' = dictGet d k' := by
  have hk : (k == k') = false := by
    simp [beq_iff_eq]
    exact fun hh => h hh.symm
  induction d with
  | nil => simp [dictSet, dictGet_cons, dictGet, hk]
  | cons p rest ih =>
    by_cases hp : p.1 == k
    · have hp' : p.1 = k := by simpa [beq_iff_eq] using hp
      simp [dictSet, hp, dictGet_cons, hk, hp']
    · simp [dictSet, hp, dictGet_cons, ih]

theorem dictKeys_dictSet (d : List (String × Nat)) (k : String) (v : Nat) :
    dictKeys (dictSet d k v) =
      if k ∈ dictKeys d then dictKeys d else dictKeys d ++ [k] := by
  induction d with
  | nil => simp [dictSet, dictKeys]
  | cons p rest ih =>
    by_cases hp : p.1 = k
    · simp [dictSet, beq_iff_eq, hp, dictKeys]
    · have hbeq : (p.1 == k) = false := by simp [beq_iff_eq, hp]
      have hks : k ≠ p.1 := Ne.symm hp
      simp only [dictKeys, List.map_cons] at ih ⊢
      simp only [dictSet, hbeq, Bool.false_eq_true, if_false, List.map_cons]
      rw [ih]
      by_cases hk : k ∈ List.map Prod.fst rest
      · simp [hk, hks]
      · simp [hk, hks]

theorem nodup_dictKeys_dictSet (d : List (String × Nat)) (k : String) (v : Nat)
    (h : (dictKeys d).Nodup) : (dictKeys (dictSet d k v)).Nodup := by
  rw [dictKeys_dictSet]
  by_cases hk : k ∈ dictKeys d
  · simpa [hk] using h
  · simp [hk, List.nodup_append, h]

theorem dictGet_of_perm {l l' : List (String × Nat)} (h : l.Perm l')
    (hn : (dictKeys l).Nodup) (k : String) : dictGet l k = dictGet l' k := by
  induction h with
  | nil => rfl
  | cons x h ih =>
    simp only [dictKeys, List.map_cons, List.nodup_cons] at hn
    simp only [dictGet_cons, ih hn.2]
  | swap x y l =>
    simp only [dictKeys, List.map_cons, List.nodup_cons, List.mem_cons] at hn
    have hxy : x.1 ≠ y.1 := fun he => hn.1 (Or.inl he.symm)
    cases hx : x.1 == k <;> cases hy : y.1 == k <;>
      simp only [dictGet_cons, hx, hy, Bool.false_eq_true, if_true, if_false]
    exact absurd (by
      have hx' : x.1 = k := by simpa [beq_iff_eq] using hx
      have hy' : y.1 = k := by simpa [beq_iff_eq] using hy
      rw [hx', hy']) hxy
  | trans h1 h2 ih1 ih2 =>
    rw [ih1 hn, ih2 (((h1.map Prod.fst).nodup_iff).mp hn)]

theorem entriesCount_nil (k : String) : entriesCount [] k = 0 := rfl

theorem entriesCount_cons (e : String × Nat) (rest : List (String × Nat)) (k : String) :
    entriesCount (e :: rest) k =
      (if e.1 == k then e.2 else 0) + entriesCount rest k := by
  by_cases h : e.1 == k <;> simp [entriesCount, List.filter_cons, h]

theorem entriesCount_of_not_mem (d : List (String × Nat)) (k : String)
    (h : k ∉ dictKeys d) : entriesCount d k = 0 := by
  induction d with
  | nil => rfl
  | cons p rest ih =>
    simp only [dictKeys, List.map_cons, List.mem_cons] at h
    push_neg at h
    have : (p.1 == k) = false := by simp [beq_iff_eq]; exact fun he => h.1 he.symm
    rw [entriesCount_cons, this, ih (by simpa [dictKeys] using h.2)]
    simp

theorem dictGet_eq_entriesCount (d : List (String × Nat)) (k : String)
    (hn : (dictKeys d).Nodup) : dictGet d k = entriesCount d k := by
  induction d with
  | nil => rfl
  | cons p rest ih =>
    simp only [dictKeys, List.map_cons, List.nodup_cons] at hn
    cases h : p.1 == k
    · rw [dictGet_cons, entriesCount_cons, h, ih hn.2]
      simp
    · have hp : p.1 = k := by simpa [beq_iff_eq] using h
      have : entriesCount rest k = 0 :=
        entriesCount_of_not_mem rest k (by rw [← hp]; exact fun hm => hn.1 (by simpa [dictKeys] using hm))
      rw [dictGet_cons, entriesCount_cons, h, this]
      simp

theorem dictGet_mergeInto (entries : List (String × Nat)) (g : List (String × Nat))
    (k : String) : dictGet (mergeInto g entries) k = dictGet g k + entriesCount entries k := by
  induction entries generalizing g with
  | nil => simp [mergeInto, entriesCount]
  | cons e rest ih =>
    rw [show mergeInto g (e :: rest) = mergeInto (dictSet g e.1 (dictGet g e.1 + e.2)) rest
        from rfl]
    rw [ih, entriesCount_cons]
    cases h : e.1 == k
    · have he : e.1 ≠ k := by simpa [beq_iff_eq] using h
      rw [dictGet_dictSet_other _ _ _ _ (Ne.symm he)]
      simp [Nat.add_assoc]
    · have he : e.1 = k := by simpa [beq_iff_eq] using h
      rw [he, dictGet_dictSet_self]
      simp [Nat.add_assoc]

theorem dictKeys_mergeInto_nodup (entries : List (String × Nat)) (g : List (String × Nat))
    (h : (dictKeys g).Nodup) : (dictKeys (mergeInto g entries)).Nodup := by
  induction entries generalizing g with
  | nil => simpa [mergeInto] using h
  | cons e rest ih =>
    exact ih (dictSet g e.1 (dictGet g e.1 + e.2)) (nodup_dictKeys_dictSet _ _ _ h)

theorem dictGet_foldl_mergeInto (ls : List (List (String × Nat)))
    (g : List (String × Nat)) (k : String) :
    dictGet (ls.foldl mergeInto g) k =
      dictGet g k + (ls.map (fun s => entriesCount s k)).sum := by
  induction ls generalizing g with
  | nil => simp
  | cons s rest ih =>
    rw [List.foldl_cons, ih, dictGet_mergeInto]
    simp [Nat.add_assoc]

theorem dictGet_mergeAll (ls : List (List (String × Nat))) (k : String) :
    dictGet (mergeAll ls) k = (ls.map (fun s => entriesCount s k)).sum := by
  rw [mergeAll, dictGet_foldl_mergeInto]
  simp [dictGet]

theorem dictKeys_mergeAll_nodup (ls : List (List (String × Nat))) :
    (dictKeys (mergeAll ls)).Nodup := by
  rw [mergeAll]
  have : ∀ g, (dictKeys g).Nodup → (dictKeys (ls.foldl mergeInto g)).Nodup := by
    induction ls with
    | nil => intro g h; simpa using h
    | cons s rest ih =>
      intro g h
      exact ih (mergeInto g s) (dictKeys_mergeInto_nodup s g h)
  exact this [] (by simp [dictKeys])

theorem insertDesc_perm (x : String × Nat) (l : List (String × Nat)) :
    (insertDesc x l).Perm (x :: l) := by
  induction l with
  | nil => rfl
  | cons y rest ih =>
    by_cases h : y.2 < x.2
    · simp [insertDesc, h]
    · simp only [insertDesc, h, if_false]
      exact ((ih.cons y).trans (List.Perm.swap x y rest))

theorem sortDesc_perm (d : List (String × Nat)) : (sortDesc d).Perm d := by
  have key : ∀ (d acc : List (String × Nat)),
      (d.foldl (fun acc x => insertDesc x acc) acc).Perm (d ++ acc) := by
    intro d
    induction d with
    | nil => intro acc; simp
    | cons x rest ih =>
      intro acc
      have h1 : (rest.foldl (fun acc x => insertDesc x acc) (insertDesc x acc)).Perm
          (rest ++ insertDesc x acc) := ih (insertDesc x acc)
      have h2 : (rest ++ insertDesc x acc).Perm (rest ++ x :: acc) :=
        (insertDesc_perm x acc).append_left rest
      exact (h1.trans h2).trans List.perm_middle
  have := key d []
  simpa [sortDesc] using this

theorem dictGet_sortDesc (d : List (String × Nat)) (k : String)
    (hn : (dictKeys d).Nodup) : dictGet (sortDesc d) k = dictGet d k := by
  have hperm := sortDesc_perm d
  have hn' : (dictKeys (sortDesc d)).Nodup :=
    ((hperm.map Prod.fst).nodup_iff).mpr hn
  exact dictGet_of_perm hperm hn' k

theorem dictKeys_sortDesc_nodup (d : List (String × Nat))
    (hn : (dictKeys d).Nodup) : (dictKeys (sortDesc d)).Nodup :=
  (((sortDesc_perm d).map Prod.fst).nodup_iff).mpr hn

theorem tallyExtensions_nodup (keys : List String) :
    (dictKeys (tallyExtensions keys)).Nodup := by
  have : ∀ (ks : List String) (acc : List (String × Nat)), (dictKeys acc).Nodup →
      (dictKeys (ks.foldl
        (fun acc key =>
          let ext := splitextExt key
          if ext ≠ "" then dictSet acc ext (dictGet acc ext + 1) else acc)
        acc)).Nodup := by
    intro ks
    induction ks with
    | nil => intro acc h; simpa using h
    | cons key rest ih =>
      intro acc h
      rw [List.foldl_cons]
      by_cases he : splitextExt key ≠ ""
      · exact ih _ (by simpa [he] using nodup_dictKeys_dictSet acc (splitextExt key) _ h)
      · simpa [he] using ih acc (by simpa [he] using h)
  exact this keys [] (by simp [dictKeys])

/-! ### Helper lemmas: the combine-mode scan loop -/

theorem scanBuckets_ok_length (env : String × String → Except PyExc (List S3Obj))
    (now : String) (targets : List (String × String)) (reps : List BucketReport)
    (h : scanBuckets env now targets = .ok reps) : reps.length = targets.length := by
  induction targets generalizing reps with
  | nil =>
    simp only [scanBuckets] at h
    cases h
    rfl
  | cons t rest ih =>
    simp only [scanBuckets] at h
    cases henv : env t with
    | ok objs =>
      rw [henv] at h
      simp only [list_files_in_bucket] at h
      cases hrest : scanBuckets env now rest with
      | error e => rw [hrest] at h; cases h
      | ok reps' =>
        rw [hrest] at h
        cases h
        simp [ih reps' hrest]
    | error e =>
      cases e with
      | clientError code msg =>
        rw [henv] at h
        simp only [list_files_in_bucket] at h
        cases hrest : scanBuckets env now rest with
        | error e' => rw [hrest] at h; cases h
        | ok reps' =>
          rw [hrest] at h
          cases h
          simp [ih reps' hrest]
      | other msg =>
        rw [henv] at h
        simp only [list_files_in_bucket] at h
        cases h

theorem scanBuckets_ok_stats (env : String × String → Except PyExc (List S3Obj))
    (now : String) (targets : List (String × String)) (reps : List BucketReport)
    (h : scanBuckets env now targets = .ok reps) :
    reps.map (fun r => r.extension_statistics) = targets.map (statsOf env) := by
  induction targets generalizing reps with
  | nil =>
    simp only [scanBuckets] at h
    cases h
    rfl
  | cons t rest ih =>
    simp only [scanBuckets] at h
    cases henv : env t with
    | ok objs =>
      rw [henv] at h
      simp only [list_files_in_bucket] at h
      cases hrest : scanBuckets env now rest with
      | error e => rw [hrest] at h; cases h
      | ok reps' =>
        rw [hrest] at h
        cases h
        simp [ih reps' hrest, statsOf, henv]
    | error e =>
      cases e with
      | clientError code msg =>
        rw [henv] at h
        simp only [list_files_in_bucket] at h
        cases hrest : scanBuckets env now rest with
        | error e' => rw [hrest] at h; cases h
        | ok reps' =>
          rw [hrest] at h
          cases h
          simp [ih reps' hrest, statsOf, henv]
      | other msg =>
        rw [henv] at h
        simp only [list_files_in_bucket] at h
        cases h

theorem statsOf_nodup (env : String × String → Except PyExc (List S3Obj))
    (t : String × String) : (dictKeys (statsOf env t)).Nodup := by
  unfold statsOf
  cases env t with
  | ok objs => exact dictKeys_sortDesc_nodup _ (tallyExtensions_nodup _)
  | error e => simp [dictKeys]

/-! ### Claim theorems -/

/-- C3: for every bucket name containing a dot, `get_bucket_url` returns
a path-style URL whose region segment is present exactly when a
non-empty region other than the provider default `us-east-1` is given
(and then matches it exactly); for every name without a dot it returns
the virtual-hosted-style URL with no region segment.  ("Set" is read as
Python truthiness: a region that is `None` or empty is unset, matching
the data-model invariant that resolved regions are non-empty.) -/
theorem get_bucket_url_styles :
    (∀ name r : String, bucket_has_dots name = true → r ≠ "" → r ≠ "us-east-1" →
      get_bucket_url name (some r) = "https://s3." ++ r ++ ".amazonaws.com/" ++ name)
    ∧ (∀ name : String, bucket_has_dots name = true →
      get_bucket_url name none = "https://s3.amazonaws.com/" ++ name
      ∧ get_bucket_url name (some "us-east-1") = "https://s3.amazonaws.com/" ++ name
      ∧ get_bucket_url name (some "") = "https://s3.amazonaws.com/" ++ name)
    ∧ (∀ (name : String) (region : Option String), bucket_has_dots name = false →
      get_bucket_url name region = "https://" ++ name ++ ".s3.amazonaws.com") := by
  refine ⟨?_, ?_, ?_⟩
  · intro name r hd h1 h2
    simp [get_bucket_url, hd, h1, h2]
  · intro name hd
    refine ⟨?_, ?_, ?_⟩ <;> simp [get_bucket_url, hd]
  · intro name region hd
    simp [get_bucket_url, hd]

/-- C3 witness: the theorem applied at concrete buckets and regions. -/
theorem get_bucket_url_styles_witness :
    get_bucket_url "a.b" (some "eu-west-2") = "https://s3.eu-west-2.amazonaws.com/a.b"
    ∧ get_bucket_url "a.b" (some "us-east-1") = "https://s3.amazonaws.com/a.b"
    ∧ get_bucket_url "mybucket" (some "eu-west-2") = "https://mybucket.s3.amazonaws.com" :=
  ⟨get_bucket_url_styles.1 "a.b" "eu-west-2" (by decide) (by decide) (by decide),
   (get_bucket_url_styles.2.1 "a.b" (by decide)).2.1,
   get_bucket_url_styles.2.2 "mybucket" (some "eu-west-2") (by decide)⟩

theorem is_valid_region_eq_spec (s : String) : is_valid_region s = regionShapeSpec s := by
  by_cases he : s.data.isEmpty
  · have hd : s.data = [] := by simpa using he
    simp [is_valid_region, regionShapeSpec, he, hd, valid_prefixes, List.isPrefixOf, splitOnChar]
  · by_cases ha : (valid_prefixes.any fun p => p.data.isPrefixOf s.data)
    · by_cases hl : (splitOnChar '-' s.data).length < 3
      · simp [is_valid_region, regionShapeSpec, he, ha, hl, Nat.not_le.mpr hl]
      · simp [is_valid_region, regionShapeSpec, he, ha, hl, Nat.not_lt.mp hl]
    · simp [is_valid_region, regionShapeSpec, he, ha]

/-- C6: `is_valid_region` returns true exactly for strings of the
region-shape grammar (recognized geographic prefix, at least three
dash-separated components, integer-parseable final component), and in
particular accepts `us-east-1` and `ap-southeast-2` while rejecting
`us-bucket` and `mybucket`. -/
theorem is_valid_region_characterization :
    (∀ s : String, is_valid_region s = regionShapeSpec s)
    ∧ is_valid_region "us-east-1" = true
    ∧ is_valid_region "ap-southeast-2" = true
    ∧ is_valid_region "us-bucket" = false
    ∧ is_valid_region "mybucket" = false :=
  ⟨is_valid_region_eq_spec, by decide, by decide, by decide, by decide⟩

/-- C5: `parse_command_line_args` consumes a leading `--combine`
(setting the flag) and then scans left to right: the token at the
cursor is a bucket name; a following token passing the region-shape
check is consumed as that bucket's region (cursor advances by two),
otherwise the bucket's region is unset (cursor advances by one); no
token is reinterpreted.  In particular
`["--combine", "alpha", "us-east-1", "beta", "gamma", "eu-west-2"]`
yields combine and `[(alpha, us-east-1), (beta, unset), (gamma, eu-west-2)]`. -/
theorem parse_command_line_args_scan :
    (∀ rest : List String, parse_command_line_args ("--combine" :: rest) =
      (true, if rest.isEmpty then none else some (parseLoop rest)))
    ∧ (∀ b : String, parseLoop [b] = [(b, none)])
    ∧ (∀ (b r : String) (rest : List String), parseLoop (b :: r :: rest) =
      if is_valid_region r then (b, some r) :: parseLoop rest
      else (b, none) :: parseLoop (r :: rest))
    ∧ parse_command_line_args ["--combine", "alpha", "us-east-1", "beta", "gamma", "eu-west-2"] =
      (true, some [("alpha", some "us-east-1"), ("beta", none), ("gamma", some "eu-west-2")]) := by
  refine ⟨?_, ?_, ?_, ?_⟩
  · intro rest
    cases rest <;> rfl
  · intro b
    rfl
  · intro b r rest
    by_cases h : is_valid_region r <;> simp [parseLoop, h]
  · decide

/-- C10: whenever a combined run serializes (returns a report), its
`total_buckets`, fixed to the number of valid targets before scanning,
equals the length of its `buckets` sequence, because exactly one
`BucketReport` is appended per valid target. -/
theorem runCombine_total_buckets (env : String × String → Except PyExc (List S3Obj))
    (now : String) (targets : List (String × String)) (rep : CombinedReport)
    (h : runCombine env now targets = .ok rep) :
    rep.total_buckets = rep.buckets.length := by
  unfold runCombine at h
  cases hscan : scanBuckets env now targets with
  | error e => rw [hscan] at h; cases h
  | ok reps =>
    rw [hscan] at h
    cases h
    simp [scanBuckets_ok_length env now targets reps hscan]

/-- C10 witness: a concrete one-target combined run. -/
theorem runCombine_total_buckets_witness :
    runCombine (fun _ => .ok []) "t" [("b", "us-east-1")] =
      .ok { scan_timestamp := "t", total_buckets := 1,
            buckets := [{ bucket_name := "b", region := "us-east-1", scan_timestamp := "t",
                          files := [], extension_statistics := [], errors := [] }],
            global_extension_statistics := [] }
    ∧ ({ scan_timestamp := "t", total_buckets := 1,
         buckets := [{ bucket_name := "b", region := "us-east-1", scan_timestamp := "t",
                       files := [], extension_statistics := [], errors := [] }],
         global_extension_statistics := [] } : CombinedReport).total_buckets =
      ({ scan_timestamp := "t", total_buckets := 1,
         buckets := [{ bucket_name := "b", region := "us-east-1", scan_timestamp := "t",
                       files := [], extension_statistics := [], errors := [] }],
         global_extension_statistics := [] } : CombinedReport).buckets.length :=
  ⟨rfl, runCombine_total_buckets (fun _ => .ok []) "t" [("b", "us-east-1")] _ rfl⟩

/-- C9: every record the enumerator produces carries `size_bytes`
exactly as returned by the listing call (a non-negative integer, `Nat`
in the model), and `size_mb` equal to `size_bytes / 1,048,576` rounded
to two decimal places (floats idealised as exact rationals, Python
`round` half-to-even). -/
theorem size_mb_consistency (name r now : String) (objs : List S3Obj) (rep : BucketReport)
    (h : list_files_in_bucket name r now (.ok objs) = .ok rep) :
    rep.files.map (fun f => f.size_bytes) = objs.map (fun o => o.size)
    ∧ ∀ f ∈ rep.files, f.size_mb = round2 ((f.size_bytes : ℚ) / 1048576) := by
  simp only [list_files_in_bucket, Except.ok.injEq] at h
  subst h
  constructor
  · simp [mkFileInfo]
  · intro f hf
    simp only [List.mem_map] at hf
    obtain ⟨o, _, rfl⟩ := hf
    show round2 (Rat.divInt o.size (1024 * 1024)) = round2 ((o.size : ℚ) / 1048576)
    rw [Rat.divInt_eq_div]
    norm_num

/-- C9 witness: a 3 MiB object yields `size_mb = 3`. -/
theorem size_mb_consistency_witness :
    list_files_in_bucket "b" "us-east-1" "t" (.ok [⟨"a.txt", 3145728, "m"⟩]) =
      .ok { bucket_name := "b", region := "us-east-1", scan_timestamp := "t",
            files := [{ bucket_name := "b", region := "us-east-1", key := "a.txt",
                        url := "https://b.s3.amazonaws.com/a.txt", size_bytes := 3145728,
                        size_mb := 3, last_modified := "m" }],
            extension_statistics := [(".txt", 1)], errors := [] }
    ∧ (3 : ℚ) = round2 ((3145728 : ℚ) / 1048576) := by
  have h := size_mb_consistency "b" "us-east-1" "t" [⟨"a.txt", 3145728, "m"⟩]
    { bucket_name := "b", region := "us-east-1", scan_timestamp := "t",
      files := [{ bucket_name := "b", region := "us-east-1", key := "a.txt",
                  url := "https://b.s3.amazonaws.com/a.txt", size_bytes := 3145728,
                  size_mb := 3, last_modified := "m" }],
      extension_statistics := [(".txt", 1)], errors := [] } rfl
  refine ⟨rfl, ?_⟩
  have h2 := h.2 { bucket_name := "b", region := "us-east-1", key := "a.txt",
                   url := "https://b.s3.amazonaws.com/a.txt", size_bytes := 3145728,
                   size_mb := 3, last_modified := "m" } (by simp)
  simpa using h2

/-- C1 counterexample: `list_files_in_bucket` catches only
`botocore.exceptions.ClientError`; a listing call failing with any other
exception (here a connection timeout) propagates out of the enumerator
instead of degrading to an `errors` entry, so the enumeration does not
return a report at all. -/
theorem list_files_raises_on_other_exception :
    list_files_in_bucket "bucket1" "us-west-2" "2024-01-01T00:00:00"
      (.error (.other "Read timeout on endpoint URL")) =
      .error (.other "Read timeout on endpoint URL") := rfl

/-- C1 (amended): every `ClientError` failure of the listing call
degrades to a single error string in the report's `errors` list with
empty `files` (and empty statistics), and as long as each bucket's
listing outcome is a success or a `ClientError`, processing continues
across all buckets, producing one report per bucket; exceptions other
than `ClientError` propagate out of the enumerator. -/
theorem list_files_clienterror_degrades :
    (∀ name r now code msg : String,
      list_files_in_bucket name r now (.error (.clientError code msg)) =
        .ok { bucket_name := name, region := r, scan_timestamp := now, files := [],
              extension_statistics := [], errors := [errMsgFor name r code msg] })
    ∧ (∀ (env : String × String → Except PyExc (List S3Obj)) (now : String)
        (targets : List (String × String)),
        (∀ t ∈ targets, handledOutcome (env t) = true) →
        ∃ reps, scanBuckets env now targets = .ok reps ∧ reps.length = targets.length) := by
  constructor
  · intro name r now code msg
    rfl
  · intro env now targets h
    induction targets with
    | nil => exact ⟨[], rfl, rfl⟩
    | cons t rest ih =>
      obtain ⟨reps, hscan, hlen⟩ := ih (fun t' ht' => h t' (List.mem_cons_of_mem t ht'))
      have ht := h t (List.mem_cons_self t rest)
      cases henv : env t with
      | ok objs =>
        refine ⟨{ bucket_name := t.1, region := t.2, scan_timestamp := now,
                  files := objs.map (mkFileInfo t.1 t.2),
                  extension_statistics := sortDesc (tallyExtensions (objs.map (fun o => o.key))),
                  errors := [] } :: reps, ?_, by simp [hlen]⟩
        simp only [scanBuckets, henv, list_files_in_bucket, hscan]
      | error e =>
        cases e with
        | clientError code msg =>
          refine ⟨{ bucket_name := t.1, region := t.2, scan_timestamp := now,
                    files := [], extension_statistics := [],
                    errors := [errMsgFor t.1 t.2 code msg] } :: reps, ?_, by simp [hlen]⟩
          simp only [scanBuckets, henv, list_files_in_bucket, hscan]
        | other msg =>
          rw [henv] at ht
          simp [handledOutcome] at ht

/-- C1 witness: a `NoSuchBucket` client error degrades to an errors
entry, and a two-bucket scan with handled outcomes yields two reports. -/
theorem list_files_clienterror_degrades_witness :
    list_files_in_bucket "b" "us-west-2" "t" (.error (.clientError "AccessDenied" "boom")) =
      .ok { bucket_name := "b", region := "us-west-2", scan_timestamp := "t", files := [],
            extension_statistics := [],
            errors := [errMsgFor "b" "us-west-2" "AccessDenied" "boom"] }
    ∧ ∃ reps, scanBuckets (fun _ => .error (.clientError "NoSuchBucket" "m")) "t"
        [("b1", "us-east-1"), ("b2", "us-west-2")] = .ok reps ∧ reps.length = 2 :=
  ⟨list_files_clienterror_degrades.1 "b" "us-west-2" "t" "AccessDenied" "boom",
   list_files_clienterror_degrades.2 (fun _ => .error (.clientError "NoSuchBucket" "m")) "t"
     [("b1", "us-east-1"), ("b2", "us-west-2")] (by decide)⟩

/-- C7: when the HEAD probe yields nothing and the `get_bucket_location`
probe fails with a `NoSuchBucket` client error, `get_bucket_region`
returns `none` (NotFound) immediately and the raw-XML `?location` probe
is never attempted; on a client error with any other code the resolver
continues to the raw-XML probe. -/
theorem get_bucket_region_nosuchbucket_short_circuit (env : RegionEnv)
    (h1 : headProbeResult env.head = none) :
    (∀ code : String, env.locApi = .clientError code → code = "NoSuchBucket" →
      get_bucket_region env = (none, [.head, .locationApi]))
    ∧ (∀ code : String, env.locApi = .clientError code → code ≠ "NoSuchBucket" →
      ProbeStep.rawXml ∈ (get_bucket_region env).2) := by
  constructor
  · intro code hc hcode
    subst hcode
    simp [get_bucket_region, h1, hc]
  · intro code hc hcode
    have hbeq : (code == "NoSuchBucket") = false := by simp [beq_iff_eq, hcode]
    simp [get_bucket_region, h1, hc, hbeq]

/-- C7 witness: concrete environments for both branches, with a live
raw-XML response that the short-circuit ignores. -/
theorem get_bucket_region_nosuchbucket_witness :
    headProbeResult (none : Option HeadResp) = none
    ∧ get_bucket_region
        { head := none, locApi := .clientError "NoSuchBucket",
          raw := some { status := 200,
                        text := "<LocationConstraint>eu-west-1</LocationConstraint>" } } =
        (none, [.head, .locationApi])
    ∧ ProbeStep.rawXml ∈ (get_bucket_region
        { head := none, locApi := .clientError "AccessDenied",
          raw := some { status := 200,
                        text := "<LocationConstraint>eu-west-1</LocationConstraint>" } }).2 :=
  ⟨rfl,
   (get_bucket_region_nosuchbucket_short_circuit
      { head := none, locApi := .clientError "NoSuchBucket",
        raw := some { status := 200,
                      text := "<LocationConstraint>eu-west-1</LocationConstraint>" } }
      rfl).1 "NoSuchBucket" rfl rfl,
   (get_bucket_region_nosuchbucket_short_circuit
      { head := none, locApi := .clientError "AccessDenied",
        raw := some { status := 200,
                      text := "<LocationConstraint>eu-west-1</LocationConstraint>" } }
      rfl).2 "AccessDenied" rfl (by decide)⟩

/-- C8: the URL-style decision is applied identically for the listing
URL and per-object URLs: for every resolved (non-empty) region, each
`url` field of each record equals `get_bucket_url` for the bucket followed by `/`
and the percent-encoded key (`quote` with `/` kept unencoded). -/
theorem object_url_refinement (name r now : String) (objs : List S3Obj) (rep : BucketReport)
    (hr : r ≠ "") (h : list_files_in_bucket name r now (.ok objs) = .ok rep) :
    ∀ f ∈ rep.files, f.url = get_bucket_url name (some r) ++ "/" ++ pyQuote f.key := by
  simp only [list_files_in_bucket, Except.ok.injEq] at h
  subst h
  intro f hf
  simp only [List.mem_map] at hf
  obtain ⟨o, _, rfl⟩ := hf
  by_cases hd : bucket_has_dots name
  · by_cases he : r = "us-east-1"
    · subst he
      simp [mkFileInfo, get_bucket_url, hd]
    · simp [mkFileInfo, get_bucket_url, hd, he, hr]
  · simp only [mkFileInfo, get_bucket_url, hd, Bool.false_eq_true, if_false]
    rw [String.append_assoc ("https://" ++ name) ".s3.amazonaws.com" "/"]
    rfl

/-- C8 witness: a dotted bucket, an explicit region and a key with a
space and a slash-free encoding check. -/
theorem object_url_refinement_witness :
    list_files_in_bucket "a.b" "eu-west-2" "t" (.ok [⟨"k 1.txt", 5, "m"⟩]) =
      .ok { bucket_name := "a.b", region := "eu-west-2", scan_timestamp := "t",
            files := [{ bucket_name := "a.b", region := "eu-west-2", key := "k 1.txt",
                        url := "https://s3.eu-west-2.amazonaws.com/a.b/k%201.txt",
                        size_bytes := 5, size_mb := 0, last_modified := "m" }],
            extension_statistics := [(".txt", 1)], errors := [] }
    ∧ "https://s3.eu-west-2.amazonaws.com/a.b/k%201.txt" =
        get_bucket_url "a.b" (some "eu-west-2") ++ "/" ++ pyQuote "k 1.txt" := by
  have h := object_url_refinement "a.b" "eu-west-2" "t" [⟨"k 1.txt", 5, "m"⟩]
    { bucket_name := "a.b", region := "eu-west-2", scan_timestamp := "t",
      files := [{ bucket_name := "a.b", region := "eu-west-2", key := "k 1.txt",
                  url := "https://s3.eu-west-2.amazonaws.com/a.b/k%201.txt",
                  size_bytes := 5, size_mb := 0, last_modified := "m" }],
      extension_statistics := [(".txt", 1)], errors := [] } (by decide) rfl
  have h2 := h { bucket_name := "a.b", region := "eu-west-2", key := "k 1.txt",
                 url := "https://s3.eu-west-2.amazonaws.com/a.b/k%201.txt",
                 size_bytes := 5, size_mb := 0, last_modified := "m" } (by simp)
  exact ⟨rfl, h2⟩

/-! ### Helper lemmas: takeWhile / dropWhile over appends -/

theorem dropWhile_head_false {α : Type} (p : α → Bool) (l : List α) (x : α) (xs : List α)
    (h : l.dropWhile p = x :: xs) : p x = false := by
  induction l with
  | nil => cases h
  | cons a t ih =>
    by_cases ha : p a
    · rw [List.dropWhile_cons_of_pos ha] at h
      exact ih h
    · rw [List.dropWhile_cons_of_neg ha] at h
      cases h
      simpa using ha

theorem takeWhile_append_left {α : Type} (p : α → Bool) (l₁ l₂ : List α)
    (h : ∃ x ∈ l₁, p x = false) : (l₁ ++ l₂).takeWhile p = l₁.takeWhile p := by
  induction l₁ with
  | nil => obtain ⟨x, hx, _⟩ := h; cases hx
  | cons a t ih =>
    by_cases ha : p a
    · have h' : ∃ x ∈ t, p x = false := by
        obtain ⟨x, hx, hpx⟩ := h
        cases List.mem_cons.mp hx with
        | inl he => rw [he] at hpx; rw [hpx] at ha; cases ha
        | inr ht => exact ⟨x, ht, hpx⟩
      simp [List.takeWhile_cons, ha, ih h']
    · have ha' : p a = false := by simpa using ha
      simp [List.takeWhile_cons, ha']

theorem dropWhile_append_left {α : Type} (p : α → Bool) (l₁ l₂ : List α)
    (h : ∃ x ∈ l₁, p x = false) : (l₁ ++ l₂).dropWhile p = l₁.dropWhile p ++ l₂ := by
  induction l₁ with
  | nil => obtain ⟨x, hx, _⟩ := h; cases hx
  | cons a t ih =>
    by_cases ha : p a
    · have h' : ∃ x ∈ t, p x = false := by
        obtain ⟨x, hx, hpx⟩ := h
        cases List.mem_cons.mp hx with
        | inl he => rw [he] at hpx; rw [hpx] at ha; cases ha
        | inr ht => exact ⟨x, ht, hpx⟩
      simp [List.dropWhile_cons, ha, ih h']
    · have ha' : p a = false := by simpa using ha
      simp [List.dropWhile_cons, ha']

theorem dropWhile_append_all {α : Type} (p : α → Bool) (l₁ l₂ : List α)
    (h : ∀ x ∈ l₁, p x = true) : (l₁ ++ l₂).dropWhile p = l₂.dropWhile p := by
  induction l₁ with
  | nil => rfl
  | cons a t ih =>
    have ha := h a (List.mem_cons_self a t)
    simp [List.dropWhile_cons, ha, ih (fun x hx => h x (List.mem_cons_of_mem a hx))]

/-! ### Helper lemmas: splitext versus the last-dot rule -/

theorem splitextExtCore_spec (cs : List Char) :
    splitextExtCore (cs.reverse.takeWhile (fun c => c ≠ '/')) =
      if ((cs.reverse.takeWhile (fun c => c ≠ '/')).reverse.dropWhile
            (fun c => c = '.')).contains '.'
      then lastDotExtSpecCore cs else [] := by
  set rb := cs.reverse.takeWhile (fun c => c ≠ '/') with hrb
  cases hdrop : rb.dropWhile (fun c => c ≠ '.') with
  | nil =>
    have hdrop' : rb.dropWhile (fun c => !decide (c = '.')) = [] := by
      simpa using hdrop
    have hnodot : ∀ x ∈ rb, x ≠ '.' := by
      intro x hx
      have := List.dropWhile_eq_nil_iff.mp hdrop x hx
      simpa using this
    have hnm : ('.' : Char) ∉ rb.reverse.dropWhile (fun c => c = '.') := by
      intro hmem
      have hin : ('.' : Char) ∈ rb :=
        List.mem_reverse.mp ((List.dropWhile_sublist _).subset hmem)
      exact hnodot '.' hin rfl
    simp [splitextExtCore, hdrop', hnm]
  | cons d beforeRev =>
    have hd : d = '.' := by
      have := dropWhile_head_false _ rb d beforeRev hdrop
      simpa using this
    subst hd
    have hdrop' : rb.dropWhile (fun c => !decide (c = '.')) = '.' :: beforeRev := by
      simpa using hdrop
    have hsplit : rb = rb.takeWhile (fun c => c ≠ '.') ++ ('.' :: beforeRev) := by
      conv_lhs => rw [← List.takeWhile_append_dropWhile (fun c => decide (c ≠ '.')) rb]
      rw [hdrop]
    have hAnodot : ∀ x ∈ rb.takeWhile (fun c => c ≠ '.'), x ≠ '.' := by
      intro x hx
      have := List.mem_takeWhile_imp hx
      simpa using this
    have hrbrev : rb.reverse =
        beforeRev.reverse ++ '.' :: (rb.takeWhile (fun c => c ≠ '.')).reverse := by
      conv_lhs => rw [hsplit]
      simp [List.reverse_append, List.reverse_cons, List.append_assoc]
    by_cases hany : beforeRev.any (fun c => c ≠ '.') = true
    · obtain ⟨w, hw, hwp⟩ := List.any_eq_true.mp hany
      have hw' : ¬ w = '.' := by simpa using hwp
      have hany' : ∃ x ∈ beforeRev, ¬ x = '.' := ⟨w, hw, hw'⟩
      have hmem : ('.' : Char) ∈ rb.reverse.dropWhile (fun c => c = '.') := by
        rw [hrbrev,
          dropWhile_append_left _ _ _ ⟨w, List.mem_reverse.mpr hw, by simpa using hw'⟩]
        exact List.mem_append_right _ (List.mem_cons_self _ _)
      have hdotrb : ('.' : Char) ∈ rb := by
        rw [hsplit]
        exact List.mem_append_right _ (List.mem_cons_self _ _)
      have hdotcs : ('.' : Char) ∈ cs := by
        have hmemrev : ('.' : Char) ∈ cs.reverse := (List.takeWhile_sublist _).subset hdotrb
        exact List.mem_reverse.mp hmemrev
      have hcsrev : cs.reverse = rb ++ cs.reverse.dropWhile (fun c => c ≠ '/') := by
        rw [hrb, List.takeWhile_append_dropWhile]
      have htake : cs.reverse.takeWhile (fun c => c ≠ '.') =
          rb.takeWhile (fun c => c ≠ '.') := by
        conv_lhs => rw [hcsrev]
        exact takeWhile_append_left _ _ _ ⟨'.', hdotrb, by simp⟩
      have htake' : cs.reverse.takeWhile (fun c => !decide (c = '.')) =
          rb.takeWhile (fun c => !decide (c = '.')) := by
        simpa using htake
      simp [splitextExtCore, hdrop', hany', hmem, lastDotExtSpecCore, hdotcs, htake']
    · have hall : ∀ x ∈ beforeRev, x = '.' := by
        intro x hx
        by_contra hne
        exact hany (List.any_eq_true.mpr ⟨x, hx, by simpa using hne⟩)
      have hany' : ¬ ∃ x ∈ beforeRev, ¬ x = '.' := by
        push_neg
        exact hall
      have hnm : ('.' : Char) ∉ rb.reverse.dropWhile (fun c => c = '.') := by
        rw [hrbrev,
          dropWhile_append_all _ _ _
            (by intro x hx; simpa using hall x (List.mem_reverse.mp hx)),
          List.dropWhile_cons_of_pos (by simp)]
        intro hmem
        have hin : ('.' : Char) ∈ rb.takeWhile (fun c => c ≠ '.') :=
          List.mem_reverse.mp ((List.dropWhile_sublist _).subset hmem)
        exact hAnodot '.' hin rfl
      simp [splitextExtCore, hdrop', hany', hnm]

theorem splitextExt_eq_amended (key : String) : splitextExt key = lastDotExtAmended key := by
  have hbase : (basenameOf key.data).reverse =
      key.data.reverse.takeWhile (fun c => c ≠ '/') := by
    rw [basenameOf, List.reverse_reverse]
  have hbase2 : basenameOf key.data =
      (key.data.reverse.takeWhile (fun c => c ≠ '/')).reverse := rfl
  rw [splitextExt, lastDotExtAmended, lastDotExtSpec, hbase, hbase2,
    splitextExtCore_spec key.data]
  cases hC : ((key.data.reverse.takeWhile (fun c => c ≠ '/')).reverse.dropWhile
      (fun c => c = '.')).contains '.' <;> simp [hC]

/-- C2 counterexample: for the key `.hidden` the rule of the claim (substring
from the last dot) gives the non-empty extension `.hidden`, which would
be tallied, but `os.path.splitext` treats a dotfile as having no
extension, so the enumerator tallies nothing for it. -/
theorem extension_rule_counterexample :
    lastDotExtSpec ".hidden" = ".hidden"
    ∧ splitextExt ".hidden" = ""
    ∧ list_files_in_bucket "bucket1" "us-east-1" "t" (.ok [⟨".hidden", 1, "m"⟩]) =
      .ok { bucket_name := "bucket1", region := "us-east-1", scan_timestamp := "t",
            files := [{ bucket_name := "bucket1", region := "us-east-1", key := ".hidden",
                        url := "https://bucket1.s3.amazonaws.com/.hidden", size_bytes := 1,
                        size_mb := 0, last_modified := "m" }],
            extension_statistics := [], errors := [] } :=
  ⟨rfl, rfl, rfl⟩

/-- C2 (amended): the extension used for the tally is the substring of
the key from its last dot, provided that dot lies in the last
slash-separated component and some character of that component before
the dot is not itself a dot; otherwise (no dot, dot only in an earlier
component, or a dotfile like `.hidden`) the extension is empty, and a
key with an empty extension contributes nothing to the tally. -/
theorem extension_rule_amended :
    (∀ key : String, splitextExt key = lastDotExtAmended key)
    ∧ (∀ (keys : List String) (key : String), splitextExt key = "" →
        tallyExtensions (keys ++ [key]) = tallyExtensions keys) := by
  refine ⟨splitextExt_eq_amended, ?_⟩
  intro keys key h
  rw [tallyExtensions, List.foldl_append]
  simp [h, tallyExtensions]

/-- C2 witness: the amended rule at an ordinary key and the no-op tally
step at an extensionless key. -/
theorem extension_rule_amended_witness :
    splitextExt "docs/report.pdf" = lastDotExtAmended "docs/report.pdf"
    ∧ splitextExt "README" = ""
    ∧ tallyExtensions (["a.txt"] ++ ["README"]) = tallyExtensions ["a.txt"] :=
  ⟨extension_rule_amended.1 "docs/report.pdf", rfl,
   extension_rule_amended.2 ["a.txt"] "README" rfl⟩

theorem runCombine_global_core (env : String × String → Except PyExc (List S3Obj))
    (now : String) (targets : List (String × String)) (rep : CombinedReport) (ext : String)
    (h : runCombine env now targets = .ok rep) :
    dictGet rep.global_extension_statistics ext =
      (targets.map (fun t => dictGet (statsOf env t) ext)).sum
    ∧ rep.buckets.map (fun r => r.extension_statistics) = targets.map (statsOf env) := by
  unfold runCombine at h
  cases hscan : scanBuckets env now targets with
  | error e => rw [hscan] at h; cases h
  | ok reps =>
    rw [hscan] at h
    cases h
    have hstats := scanBuckets_ok_stats env now targets reps hscan
    refine ⟨?_, hstats⟩
    show dictGet (sortDesc (mergeAll (reps.map (fun r => r.extension_statistics)))) ext = _
    rw [dictGet_sortDesc _ _ (dictKeys_mergeAll_nodup _), dictGet_mergeAll, hstats,
      List.map_map]
    congr 1
    refine List.map_congr_left ?_
    intro t _
    exact (dictGet_eq_entriesCount _ _ (statsOf_nodup env t)).symm

/-- C4: in combined mode, for every extension the count stored in
`global_extension_statistics` equals the sum of the counts of that extension
across the `extension_statistics` of all constituent `BucketReport`s,
for any number of buckets; and the global count is independent of the
order in which the targets are processed. -/
theorem combined_global_statistics (env : String × String → Except PyExc (List S3Obj))
    (now : String) (targets : List (String × String)) (rep : CombinedReport) (ext : String)
    (h : runCombine env now targets = .ok rep) :
    dictGet rep.global_extension_statistics ext =
      (rep.buckets.map (fun b => dictGet b.extension_statistics ext)).sum
    ∧ (∀ (targets' : List (String × String)) (rep' : CombinedReport),
        targets.Perm targets' → runCombine env now targets' = .ok rep' →
        dictGet rep'.global_extension_statistics ext =
          dictGet rep.global_extension_statistics ext) := by
  obtain ⟨hmain, hstats⟩ := runCombine_global_core env now targets rep ext h
  constructor
  · rw [hmain]
    have hpt : rep.buckets.map (fun b => dictGet b.extension_statistics ext)
        = targets.map (fun t => dictGet (statsOf env t) ext) := by
      have hmapped := congrArg (List.map (fun s => dictGet s ext)) hstats
      simpa [List.map_map, Function.comp] using hmapped
    rw [hpt]
  · intro targets' rep' hperm h'
    obtain ⟨hmain', _⟩ := runCombine_global_core env now targets' rep' ext h'
    rw [hmain, hmain']
    exact (List.Perm.sum_eq (hperm.map _)).symm

/-- C4 witness: two synthetic buckets contributing `.pdf` counts 1 and
2; the combined report stores the global count 3 = 1 + 2. -/
theorem combined_global_statistics_witness :
    runCombine
      (fun t => if t.1 == "b1" then .ok [⟨"a.pdf", 0, "m"⟩]
                else .ok [⟨"b.pdf", 0, "m"⟩, ⟨"c.pdf", 0, "m"⟩])
      "t" [("b1", "us-east-1"), ("b2", "us-east-1")] =
      .ok { scan_timestamp := "t", total_buckets := 2,
            buckets :=
              [{ bucket_name := "b1", region := "us-east-1", scan_timestamp := "t",
                 files := [{ bucket_name := "b1", region := "us-east-1", key := "a.pdf",
                             url := "https://b1.s3.amazonaws.com/a.pdf", size_bytes := 0,
                             size_mb := 0, last_modified := "m" }],
                 extension_statistics := [(".pdf", 1)], errors := [] },
               { bucket_name := "b2", region := "us-east-1", scan_timestamp := "t",
                 files := [{ bucket_name := "b2", region := "us-east-1", key := "b.pdf",
                             url := "https://b2.s3.amazonaws.com/b.pdf", size_bytes := 0,
                             size_mb := 0, last_modified := "m" },
                           { bucket_name := "b2", region := "us-east-1", key := "c.pdf",
                             url := "https://b2.s3.amazonaws.com/c.pdf", size_bytes := 0,
                             size_mb := 0, last_modified := "m" }],
                 extension_statistics := [(".pdf", 2)], errors := [] }],
            global_extension_statistics := [(".pdf", 3)] }
    ∧ dictGet [(".pdf", 3)] ".pdf" = 1 + 2 := by
  constructor
  · rfl
  · have h := combined_global_statistics
      (fun t => if t.1 == "b1" then .ok [⟨"a.pdf", 0, "m"⟩]
                else .ok [⟨"b.pdf", 0, "m"⟩, ⟨"c.pdf", 0, "m"⟩])
      "t" [("b1", "us-east-1"), ("b2", "us-east-1")]
      { scan_timestamp := "t", total_buckets := 2,
        buckets :=
          [{ bucket_name := "b1", region := "us-east-1", scan_timestamp := "t",
             files := [{ bucket_name := "b1", region := "us-east-1", key := "a.pdf",
                         url := "https://b1.s3.amazonaws.com/a.pdf", size_bytes := 0,
                         size_mb := 0, last_modified := "m" }],
             extension_statistics := [(".pdf", 1)], errors := [] },
           { bucket_name := "b2", region := "us-east-1", scan_timestamp := "t",
             files := [{ bucket_name := "b2", region := "us-east-1", key := "b.pdf",
                         url := "https://b2.s3.amazonaws.com/b.pdf", size_bytes := 0,
                         size_mb := 0, last_modified := "m" },
                       { bucket_name := "b2", region := "us-east-1", key := "c.pdf",
                         url := "https://b2.s3.amazonaws.com/c.pdf", size_bytes := 0,
                         size_mb := 0, last_modified := "m" }],
             extension_statistics := [(".pdf", 2)], errors := [] }],
        global_extension_statistics := [(".pdf", 3)] } ".pdf" rfl
    exact h.1
